import Mathlib

/-!
Shallow embedding of the task scheduler in `src/utils/scheduler.py`
(`ScheduledTask`, `TaskScheduler`) and proofs about its scheduling,
error-handling and registry behaviour.

Modelling conventions:
* `datetime` timestamps are integer seconds (`Int`); `total_seconds()` on a
  difference of timestamps becomes integer subtraction.
* The Python callable `func` is an opaque handle (`Nat`); the outcome of one
  invocation of the work (normal return vs. raised exception) is an explicit
  `ExecEvent` parameter.
* `Dict[str, ScheduledTask]` becomes an association list `List (String × ScheduledTask)`;
  dict-key uniqueness is the predicate `KeysNodup`.
* Python exceptions raised by the structural API (`ValueError` for duplicate /
  not-found, `RuntimeError` for busy) become the `Except SchedulerError` monad.
* asyncio concurrency is modelled by the event system `sysStep`: one event is
  one atomic segment between suspension points of the event loop.  The prefix
  of `_execute_task` up to its first `await` (setting `is_running` and
  `last_run`) runs before the poll loop's next tick, because the loop only
  suspends at `asyncio.sleep(1)` after calling `create_task`; hence launch and
  mark are one atomic step (`execStart`).
-/

namespace Scheduler

/-- `ScheduledTask` dataclass (scheduler.py lines 13-27).  `func` is an opaque
handle; `args`/`kwargs` carry opaque integer payloads.  `__post_init__`
replaces a falsy `kwargs` with the empty dict, which the default `[]` models. -/
structure ScheduledTask where
  name : String
  func : Nat
  interval : Int
  last_run : Option Int := none
  is_running : Bool := false
  error_count : Nat := 0
  max_errors : Nat := 3
  args : List Int := []
  kwargs : List (String × Int) := []
  deriving Repr, DecidableEq

/-- Scheduler state: the task registry and the running flag
(scheduler.py lines 32-35).  The lock serialises registry mutation; in this
interleaving model every registry operation is one atomic step, which is what
the lock guarantees, so the lock needs no separate representation. -/
structure TaskScheduler where
  tasks : List (String × ScheduledTask)
  running : Bool
  deriving Repr, DecidableEq

/-- Fresh scheduler as built by `TaskScheduler.__init__`. -/
def TaskScheduler.init : TaskScheduler := { tasks := [], running := false }

/-- `self.default_intervals` table (scheduler.py lines 38-44). -/
def default_intervals : List (String × Int) :=
  [("knowledge_update", 3600),
   ("metrics_cleanup", 86400),
   ("system_backup", 43200),
   ("health_check", 300),
   ("error_notification", 1800)]

/-- Errors raised by the structural API: `ValueError` on duplicate add,
`ValueError` on unknown name, `RuntimeError` on `run_task_now` of a running
task.  The spec names them `DuplicateTaskError`, `TaskNotFoundError`,
`TaskBusyError`. -/
inductive SchedulerError where
  | duplicateTask (name : String)
  | taskNotFound (name : String)
  | taskBusy (name : String)
  deriving Repr, DecidableEq

/-- Apply `f` to the registry entry (entries) stored under `name`; Python's
mutation of the shared `ScheduledTask` object reached through the dict. -/
def updateTask (ts : List (String × ScheduledTask)) (name : String)
    (f : ScheduledTask → ScheduledTask) : List (String × ScheduledTask) :=
  ts.map (fun p => if p.1 = name then (p.1, f p.2) else p)

/-- Registry keys are pairwise distinct — the dict invariant. -/
def KeysNodup (ts : List (String × ScheduledTask)) : Prop :=
  (ts.map (fun p => p.1)).Nodup

instance (ts : List (String × ScheduledTask)) : Decidable (KeysNodup ts) := by
  unfold KeysNodup; infer_instance

/-- `add_task` (scheduler.py lines 64-88): reject duplicates, resolve a
missing interval from `default_intervals` with fallback 3600, store a fresh
`ScheduledTask`.  NOTE: the extra keyword arguments go into the task's
`kwargs` field (the work's arguments); they never touch `max_errors`. -/
def resolvedInterval (name : String) (interval : Option Int) : Int :=
  match interval with
  | none => (default_intervals.lookup name).getD 3600
  | some v => v

def add_task (s : TaskScheduler) (name : String) (func : Nat)
    (interval : Option Int) (kwargs : List (String × Int)) :
    Except SchedulerError TaskScheduler :=
  if (s.tasks.lookup name).isSome then
    .error (.duplicateTask name)
  else
    let task : ScheduledTask :=
      { name := name, func := func, interval := resolvedInterval name interval,
        kwargs := kwargs }
    .ok { s with tasks := s.tasks ++ [(name, task)] }

/-- Registry effect of `remove_task` (scheduler.py lines 90-101): error when
absent, else delete the entry.  (The bounded wait for a running task is a
temporal detail handled by the event system; the registry effect is deletion.) -/
def remove_task (s : TaskScheduler) (name : String) :
    Except SchedulerError TaskScheduler :=
  if (s.tasks.lookup name).isSome then
    .ok { s with tasks := s.tasks.filter (fun p => !(p.1 == name)) }
  else
    .error (.taskNotFound name)

/-- The due test of the poll loop (scheduler.py lines 111-113):
not running, and never run or elapsed seconds at least the interval. -/
def isDue (task : ScheduledTask) (current_time : Int) : Bool :=
  !task.is_running &&
    (match task.last_run with
     | none => true
     | some t => decide (current_time - t ≥ task.interval))

/-- The names the poll loop launches on one tick: the due tasks, in registry
iteration order (scheduler.py lines 109-114). -/
def dueNames (ts : List (String × ScheduledTask)) (now : Int) : List String :=
  (ts.filter (fun p => isDue p.2 now)).map (fun p => p.1)

/-- `update_interval` (scheduler.py lines 183-190): error when absent, else
store the given interval unchecked. -/
def update_interval (s : TaskScheduler) (name : String) (interval : Int) :
    Except SchedulerError TaskScheduler :=
  if (s.tasks.lookup name).isSome then
    .ok { s with tasks := updateTask s.tasks name (fun t => { t with interval := interval }) }
  else
    .error (.taskNotFound name)

/-- `run_task_now` (scheduler.py lines 192-203): error when absent, error when
running, else clear `last_run`. -/
def run_task_now (s : TaskScheduler) (name : String) :
    Except SchedulerError TaskScheduler :=
  match s.tasks.lookup name with
  | none => .error (.taskNotFound name)
  | some task =>
    if task.is_running then
      .error (.taskBusy name)
    else
      .ok { s with tasks := updateTask s.tasks name (fun t => { t with last_run := none }) }

/-- One row of the `get_status` result (scheduler.py lines 170-179);
`next_run` is `last_run + interval`, or the current time when never run. -/
structure TaskStatus where
  last_run : Option Int
  is_running : Bool
  error_count : Nat
  interval : Int
  next_run : Int
  deriving Repr, DecidableEq

/-- `get_status` (scheduler.py lines 167-181): a pure snapshot of the
registry (it returns a fresh dict and assigns to no field, so the scheduler
state is unchanged by construction). -/
def get_status (s : TaskScheduler) (now : Int) : List (String × TaskStatus) :=
  s.tasks.map (fun p =>
    (p.1,
     { last_run := p.2.last_run
       is_running := p.2.is_running
       error_count := p.2.error_count
       interval := p.2.interval
       next_run := match p.2.last_run with
         | some t => t + p.2.interval
         | none => now }))

/-- Outcome of one invocation of the task's work: returned normally, or
raised. -/
inductive ExecEvent where
  | success
  | failure
  deriving Repr, DecidableEq

/-- Result of one complete `_execute_task` call: the scheduler state, the
final state of the executing `ScheduledTask` object itself (which survives
even if its registry entry was deleted), and whether an exception escaped
`_execute_task` (possible when `remove_task` inside the except block raises). -/
structure ExecResult where
  sched : TaskScheduler
  obj : ScheduledTask
  escaped : Bool
  deriving Repr, DecidableEq

/-- Overwrite every registry entry stored under `t.name` with `t`: Python's
aliasing between the dict entry and the mutated object. -/
def setObj (s : TaskScheduler) (t : ScheduledTask) : TaskScheduler :=
  { s with tasks := updateTask s.tasks t.name (fun _ => t) }

/-- `_execute_task` (scheduler.py lines 122-156) as one function of the work
outcome.  try: mark running, set `last_run` to the start time, run the work;
on success zero `error_count`; on failure increment it and, at the
`max_errors` threshold, `remove_task` (which raises when the entry is already
gone — the exception escapes, but only after the finally clause); finally:
clear `is_running`. -/
def execute_task (s : TaskScheduler) (task : ScheduledTask) (start : Int)
    (oc : ExecEvent) : ExecResult :=
  let t1 : ScheduledTask := { task with is_running := true, last_run := some start }
  let s1 := setObj s t1
  let r : ExecResult :=
    match oc with
    | .success =>
      let t2 : ScheduledTask := { t1 with error_count := 0 }
      { sched := setObj s1 t2, obj := t2, escaped := false }
    | .failure =>
      let t2 : ScheduledTask := { t1 with error_count := t1.error_count + 1 }
      let s2 := setObj s1 t2
      if t2.error_count ≥ t2.max_errors then
        match remove_task s2 t2.name with
        | .ok s3 => { sched := s3, obj := t2, escaped := false }
        | .error _ => { sched := s2, obj := t2, escaped := true }
      else
        { sched := s2, obj := t2, escaped := false }
  let tf : ScheduledTask := { r.obj with is_running := false }
  { r with sched := setObj r.sched tf, obj := tf }

/-! ### The concurrency model

One asyncio step is one atomic segment between suspension points.  The poll
loop's tick evaluates all tasks against one `current_time`, calls
`create_task` for every due one, and only then suspends at `sleep(1)`; the
created `_execute_task` coroutines then run their prefix (mark running, set
`last_run`) before the loop wakes again.  A tick is therefore the atomic step
`execStart` applied to all due names.  The rest of `_execute_task` (the work,
the error handling and the finally clause) is the later `finish` event.
`run_task_now` contains no `await` at all, so it is a single atomic event. -/

/-- Launch prefix of `_execute_task` (scheduler.py lines 125-126): mark the
task running and stamp `last_run` with the start time. -/
def markRunning (now : Int) (t : ScheduledTask) : ScheduledTask :=
  { t with is_running := true, last_run := some now }

def execStart (s : TaskScheduler) (name : String) (now : Int) : TaskScheduler :=
  { s with tasks := updateTask s.tasks name (markRunning now) }

/-- Apply `execStart` to each launched name in order. -/
def startAll (s : TaskScheduler) (names : List String) (now : Int) : TaskScheduler :=
  names.foldl (fun acc n => execStart acc n now) s

/-- Completion of `_execute_task` on the registry entry under `name`
(scheduler.py lines 138-156): success zeroes `error_count`; failure
increments it and removes the task at the `max_errors` threshold; the finally
clause clears `is_running` (a no-op on the registry when the entry was just
removed — the flag then lives on the detached object only). -/
def execFinish (s : TaskScheduler) (name : String) (oc : ExecEvent) : TaskScheduler :=
  let s2 :=
    match oc with
    | .success =>
      { s with tasks := updateTask s.tasks name (fun t => { t with error_count := 0 }) }
    | .failure =>
      let s1 := { s with tasks := updateTask s.tasks name (fun t => { t with error_count := t.error_count + 1 }) }
      match s1.tasks.lookup name with
      | some t =>
        if t.error_count ≥ t.max_errors then
          { s1 with tasks := s1.tasks.filter (fun p => !(p.1 == name)) }
        else s1
      | none => s1
  { s2 with tasks := updateTask s2.tasks name (fun t => { t with is_running := false }) }

/-- Events of the interleaving model: a poll tick at a given time, the
completion of one in-flight execution of a named task, and a `run_task_now`
call (which raises rather than acts when the task is absent or running). -/
inductive SchedEvent where
  | tick (now : Int)
  | finish (name : String) (oc : ExecEvent)
  | runNow (name : String)
  deriving Repr, DecidableEq

/-- System state: the scheduler plus the multiset (as a list) of names whose
`_execute_task` has started and not yet finished. -/
structure SysState where
  sched : TaskScheduler
  launched : List String
  deriving Repr, DecidableEq

/-- One atomic step of the interleaving model. -/
def sysStep (st : SysState) (e : SchedEvent) : SysState :=
  match e with
  | .tick now =>
    let due := dueNames st.sched.tasks now
    { sched := startAll st.sched due now, launched := st.launched ++ due }
  | .finish name oc =>
    if st.launched.contains name then
      { sched := execFinish st.sched name oc, launched := st.launched.erase name }
    else
      st
  | .runNow name =>
    match run_task_now st.sched name with
    | .ok s2 => { st with sched := s2 }
    | .error _ => st

/-- Run a sequence of events. -/
def sysRun (st : SysState) (es : List SchedEvent) : SysState :=
  es.foldl sysStep st

/-! ### Association-list lemmas for the registry -/

theorem lookup_cons_eq (k nm : String) (b : ScheduledTask)
    (rest : List (String × ScheduledTask)) (h : nm = k) :
    ((k, b) :: rest).lookup nm = some b := by
  subst h; simp [List.lookup]

theorem lookup_cons_ne (k nm : String) (b : ScheduledTask)
    (rest : List (String × ScheduledTask)) (h : nm ≠ k) :
    ((k, b) :: rest).lookup nm = rest.lookup nm := by
  have hb : (nm == k) = false := beq_eq_false_iff_ne.mpr h
  simp [List.lookup, hb]

theorem updateTask_cons (k : String) (b : ScheduledTask)
    (rest : List (String × ScheduledTask)) (name : String)
    (f : ScheduledTask → ScheduledTask) :
    updateTask ((k, b) :: rest) name f =
      (if k = name then (k, f b) else (k, b)) :: updateTask rest name f := by
  simp [updateTask]

theorem lookup_updateTask_self (ts : List (String × ScheduledTask)) (name : String)
    (f : ScheduledTask → ScheduledTask) :
    (updateTask ts name f).lookup name = (ts.lookup name).map f := by
  induction ts with
  | nil => rfl
  | cons p rest ih =>
    obtain ⟨k, b⟩ := p
    rw [updateTask_cons]
    by_cases h : k = name
    · rw [if_pos h, lookup_cons_eq k name (f b) _ h.symm,
        lookup_cons_eq k name b rest h.symm]
      rfl
    · rw [if_neg h, lookup_cons_ne k name b _ (Ne.symm h),
        lookup_cons_ne k name b rest (Ne.symm h), ih]

theorem lookup_updateTask_ne (ts : List (String × ScheduledTask)) (name nm : String)
    (f : ScheduledTask → ScheduledTask) (h : nm ≠ name) :
    (updateTask ts name f).lookup nm = ts.lookup nm := by
  induction ts with
  | nil => rfl
  | cons p rest ih =>
    obtain ⟨k, b⟩ := p
    rw [updateTask_cons]
    by_cases hk : k = name
    · have hnm : nm ≠ k := fun hc => h (hc ▸ hk)
      rw [if_pos hk, lookup_cons_ne k nm (f b) _ hnm,
        lookup_cons_ne k nm b rest hnm, ih]
    · by_cases hq : nm = k
      · rw [if_neg hk, lookup_cons_eq k nm b _ hq, lookup_cons_eq k nm b rest hq]
      · rw [if_neg hk, lookup_cons_ne k nm b _ hq, lookup_cons_ne k nm b rest hq, ih]

theorem keys_updateTask (ts : List (String × ScheduledTask)) (name : String)
    (f : ScheduledTask → ScheduledTask) :
    (updateTask ts name f).map (fun p => p.1) = ts.map (fun p => p.1) := by
  induction ts with
  | nil => rfl
  | cons p rest ih =>
    obtain ⟨k, b⟩ := p
    rw [updateTask_cons]
    by_cases h : k = name
    · rw [if_pos h]; simpa using ih
    · rw [if_neg h]; simpa using ih

theorem lookup_filter_self (ts : List (String × ScheduledTask)) (name : String) :
    (ts.filter (fun p => !(p.1 == name))).lookup name = none := by
  induction ts with
  | nil => rfl
  | cons p rest ih =>
    obtain ⟨k, b⟩ := p
    by_cases h : k = name
    · have hb : (k == name) = true := beq_iff_eq.mpr h
      simpa [List.filter_cons, hb] using ih
    · have hb : (k == name) = false := beq_eq_false_iff_ne.mpr h
      rw [List.filter_cons]
      simp only [hb, Bool.not_false, if_pos]
      rw [lookup_cons_ne k name b _ (Ne.symm h)]
      exact ih

theorem lookup_filter_ne (ts : List (String × ScheduledTask)) (name nm : String)
    (h : nm ≠ name) :
    (ts.filter (fun p => !(p.1 == name))).lookup nm = ts.lookup nm := by
  induction ts with
  | nil => rfl
  | cons p rest ih =>
    obtain ⟨k, b⟩ := p
    by_cases hk : k = name
    · have hb : (k == name) = true := beq_iff_eq.mpr hk
      have hnm : nm ≠ k := fun hc => h (hc ▸ hk)
      have hcond : ¬ ((!(k == name)) = true) := by simp [hb]
      rw [List.filter_cons, if_neg hcond, lookup_cons_ne k nm b rest hnm]
      exact ih
    · have hb : (k == name) = false := beq_eq_false_iff_ne.mpr hk
      rw [List.filter_cons]
      simp only [hb, Bool.not_false, if_pos]
      by_cases hq : nm = k
      · rw [lookup_cons_eq k nm b _ hq, lookup_cons_eq k nm b rest hq]
      · rw [lookup_cons_ne k nm b _ hq, lookup_cons_ne k nm b rest hq, ih]

theorem mem_of_lookup_eq_some {ts : List (String × ScheduledTask)} {name : String}
    {t : ScheduledTask} (h : ts.lookup name = some t) : (name, t) ∈ ts := by
  induction ts with
  | nil => simp [List.lookup] at h
  | cons p rest ih =>
    obtain ⟨k, b⟩ := p
    by_cases hp : name = k
    · rw [lookup_cons_eq k name b rest hp] at h
      cases h
      subst hp
      exact List.mem_cons_self _ _
    · rw [lookup_cons_ne k name b rest hp] at h
      exact List.mem_cons_of_mem _ (ih h)

theorem lookup_eq_none_iff {ts : List (String × ScheduledTask)} {name : String} :
    ts.lookup name = none ↔ name ∉ ts.map (fun p => p.1) := by
  induction ts with
  | nil => simp [List.lookup]
  | cons p rest ih =>
    obtain ⟨k, b⟩ := p
    by_cases hp : name = k
    · rw [lookup_cons_eq k name b rest hp]
      simp [hp]
    · rw [lookup_cons_ne k name b rest hp]
      simp [hp, ih]

/-! ### Lemmas about the due set and the launch prefix -/

theorem dueNames_sublist (ts : List (String × ScheduledTask)) (now : Int) :
    List.Sublist (dueNames ts now) (ts.map (fun p => p.1)) := by
  unfold dueNames
  exact (List.filter_sublist ts).map (fun p => p.1)

theorem dueNames_nodup {ts : List (String × ScheduledTask)} (h : KeysNodup ts)
    (now : Int) : (dueNames ts now).Nodup :=
  h.sublist (dueNames_sublist ts now)

theorem mem_dueNames_iff {ts : List (String × ScheduledTask)} (h : KeysNodup ts)
    (name : String) (now : Int) :
    name ∈ dueNames ts now ↔
      ∃ t, ts.lookup name = some t ∧ isDue t now = true := by
  induction ts with
  | nil => simp [dueNames, List.lookup]
  | cons p rest ih =>
    obtain ⟨k, b⟩ := p
    have hkeys : k ∉ rest.map (fun p => p.1) ∧ KeysNodup rest := by
      simpa [KeysNodup] using h
    have ihr := ih hkeys.2
    by_cases hd : isDue b now = true
    · have : dueNames ((k, b) :: rest) now = k :: dueNames rest now := by
        simp [dueNames, List.filter_cons, hd]
      rw [this]
      by_cases hp : name = k
      · subst hp
        rw [lookup_cons_eq name name b rest rfl]
        simp [hd]
      · rw [lookup_cons_ne k name b rest hp]
        simp [hp, ihr]
    · have : dueNames ((k, b) :: rest) now = dueNames rest now := by
        simp [dueNames, List.filter_cons, hd]
      rw [this]
      by_cases hp : name = k
      · subst hp
        rw [lookup_cons_eq name name b rest rfl]
        constructor
        · intro hmem
          obtain ⟨t, ht, hdue⟩ := ihr.mp hmem
          exact absurd (List.mem_map.mpr ⟨(name, t), mem_of_lookup_eq_some ht, rfl⟩)
            hkeys.1
        · rintro ⟨t, ht, hdue⟩
          cases ht
          exact absurd hdue hd
      · rw [lookup_cons_ne k name b rest hp]
        exact ihr

theorem markRunning_idem (now : Int) (t : ScheduledTask) :
    markRunning now (markRunning now t) = markRunning now t := rfl

theorem lookup_startAll_not_mem (s : TaskScheduler) (names : List String)
    (now : Int) (name : String) (h : name ∉ names) :
    (startAll s names now).tasks.lookup name = s.tasks.lookup name := by
  induction names generalizing s with
  | nil => rfl
  | cons n ns ih =>
    have hn : name ≠ n := fun hc => h (hc ▸ List.mem_cons_self n ns)
    have hns : name ∉ ns := fun hc => h (List.mem_cons_of_mem n hc)
    show (startAll (execStart s n now) ns now).tasks.lookup name = _
    rw [ih (execStart s n now) hns]
    exact lookup_updateTask_ne s.tasks n name (markRunning now) hn

theorem lookup_startAll_mem (s : TaskScheduler) (names : List String)
    (now : Int) (name : String) (h : name ∈ names) :
    (startAll s names now).tasks.lookup name =
      (s.tasks.lookup name).map (markRunning now) := by
  induction names generalizing s with
  | nil => cases h
  | cons n ns ih =>
    show (startAll (execStart s n now) ns now).tasks.lookup name = _
    by_cases hm : name ∈ ns
    · rw [ih (execStart s n now) hm]
      by_cases hn : name = n
      · subst hn
        rw [show (execStart s name now).tasks = updateTask s.tasks name (markRunning now) from rfl,
          lookup_updateTask_self, Option.map_map]
        cases s.tasks.lookup name <;> rfl
      · rw [show (execStart s n now).tasks = updateTask s.tasks n (markRunning now) from rfl,
          lookup_updateTask_ne s.tasks n name (markRunning now) hn]
    · have hn : name = n := by
        rcases List.mem_cons.mp h with h1 | h2
        · exact h1
        · exact absurd h2 hm
      subst hn
      rw [lookup_startAll_not_mem (execStart s name now) ns now name hm]
      exact lookup_updateTask_self s.tasks name (markRunning now)

theorem keys_startAll (s : TaskScheduler) (names : List String) (now : Int) :
    (startAll s names now).tasks.map (fun p => p.1) = s.tasks.map (fun p => p.1) := by
  induction names generalizing s with
  | nil => rfl
  | cons n ns ih =>
    show (startAll (execStart s n now) ns now).tasks.map _ = _
    rw [ih (execStart s n now)]
    exact keys_updateTask s.tasks n (markRunning now)

/-! ### The no-self-overlap invariant -/

/-- How many executions of `name` the registry can admit as running: 1 when
its entry is marked running, else 0. -/
def inflight (s : TaskScheduler) (name : String) : Nat :=
  match s.tasks.lookup name with
  | some t => if t.is_running then 1 else 0
  | none => 0

theorem inflight_le_one (s : TaskScheduler) (name : String) :
    inflight s name ≤ 1 := by
  unfold inflight
  split
  · split <;> simp
  · simp

theorem inflight_execFinish_self (s : TaskScheduler) (name : String)
    (oc : ExecEvent) : inflight (execFinish s name oc) name = 0 := by
  cases oc with
  | success =>
    unfold inflight
    rw [show (execFinish s name .success).tasks
        = updateTask (updateTask s.tasks name (fun t => { t with error_count := 0 }))
            name (fun t => { t with is_running := false }) from rfl,
      lookup_updateTask_self, lookup_updateTask_self]
    cases s.tasks.lookup name <;> simp
  | failure =>
    unfold inflight
    rw [show (execFinish s name .failure).tasks
        = (let s1 : TaskScheduler := { s with tasks := updateTask s.tasks name (fun t => { t with error_count := t.error_count + 1 }) }
           let s2 : TaskScheduler := match s1.tasks.lookup name with
             | some t =>
               if t.error_count ≥ t.max_errors then
                 { s1 with tasks := s1.tasks.filter (fun p => !(p.1 == name)) }
               else s1
             | none => s1
           updateTask s2.tasks name (fun t => { t with is_running := false })) from rfl]
    cases hl : (updateTask s.tasks name (fun t => { t with error_count := t.error_count + 1 })).lookup name with
    | none =>
      simp only [hl]
      rw [lookup_updateTask_self, hl]
      rfl
    | some t =>
      simp only [hl]
      by_cases hth : t.error_count ≥ t.max_errors
      · rw [if_pos hth, lookup_updateTask_self, lookup_filter_self]
        rfl
      · rw [if_neg hth, lookup_updateTask_self, hl]
        rfl

theorem lookup_execFinish_ne (s : TaskScheduler) (name nm : String)
    (oc : ExecEvent) (h : nm ≠ name) :
    (execFinish s name oc).tasks.lookup nm = s.tasks.lookup nm := by
  cases oc with
  | success =>
    rw [show (execFinish s name .success).tasks
        = updateTask (updateTask s.tasks name (fun t => { t with error_count := 0 }))
            name (fun t => { t with is_running := false }) from rfl,
      lookup_updateTask_ne _ _ _ _ h, lookup_updateTask_ne _ _ _ _ h]
  | failure =>
    rw [show (execFinish s name .failure).tasks
        = (let s1 : TaskScheduler := { s with tasks := updateTask s.tasks name (fun t => { t with error_count := t.error_count + 1 }) }
           let s2 : TaskScheduler := match s1.tasks.lookup name with
             | some t =>
               if t.error_count ≥ t.max_errors then
                 { s1 with tasks := s1.tasks.filter (fun p => !(p.1 == name)) }
               else s1
             | none => s1
           updateTask s2.tasks name (fun t => { t with is_running := false })) from rfl]
    cases hl : (updateTask s.tasks name (fun t => { t with error_count := t.error_count + 1 })).lookup name with
    | none =>
      simp only [hl]
      rw [lookup_updateTask_ne _ _ _ _ h, lookup_updateTask_ne _ _ _ _ h]
    | some t =>
      simp only [hl]
      by_cases hth : t.error_count ≥ t.max_errors
      · rw [if_pos hth, lookup_updateTask_ne _ _ _ _ h, lookup_filter_ne _ _ _ h,
          lookup_updateTask_ne _ _ _ _ h]
      · rw [if_neg hth, lookup_updateTask_ne _ _ _ _ h, lookup_updateTask_ne _ _ _ _ h]

theorem keysNodup_execFinish (s : TaskScheduler) (name : String) (oc : ExecEvent)
    (h : KeysNodup s.tasks) : KeysNodup (execFinish s name oc).tasks := by
  cases oc with
  | success =>
    unfold KeysNodup
    rw [show (execFinish s name .success).tasks
        = updateTask (updateTask s.tasks name (fun t => { t with error_count := 0 }))
            name (fun t => { t with is_running := false }) from rfl,
      keys_updateTask, keys_updateTask]
    exact h
  | failure =>
    unfold KeysNodup
    rw [show (execFinish s name .failure).tasks
        = (let s1 : TaskScheduler := { s with tasks := updateTask s.tasks name (fun t => { t with error_count := t.error_count + 1 }) }
           let s2 : TaskScheduler := match s1.tasks.lookup name with
             | some t =>
               if t.error_count ≥ t.max_errors then
                 { s1 with tasks := s1.tasks.filter (fun p => !(p.1 == name)) }
             else s1
             | none => s1
           updateTask s2.tasks name (fun t => { t with is_running := false })) from rfl]
    cases hl : (updateTask s.tasks name (fun t => { t with error_count := t.error_count + 1 })).lookup name with
    | none =>
      simp only [hl]
      rw [keys_updateTask, keys_updateTask]
      exact h
    | some t =>
      simp only [hl]
      by_cases hth : t.error_count ≥ t.max_errors
      · rw [if_pos hth, keys_updateTask]
        have hk : KeysNodup (updateTask s.tasks name (fun t => { t with error_count := t.error_count + 1 })) := by
          unfold KeysNodup
          rw [keys_updateTask]
          exact h
        have hsub : List.Sublist
            (List.map (fun p => p.1)
              ((updateTask s.tasks name (fun t => { t with error_count := t.error_count + 1 })).filter
                (fun p => !(p.1 == name))))
            (List.map (fun p => p.1)
              (updateTask s.tasks name (fun t => { t with error_count := t.error_count + 1 }))) :=
          (List.filter_sublist _).map (fun (p : String × ScheduledTask) => p.1)
        exact hk.sublist hsub
      · rw [if_neg hth, keys_updateTask, keys_updateTask]
        exact h

/-- The no-self-overlap invariant: registry keys are distinct, and the number
of in-flight executions of each name equals 1 when its entry is marked
running and 0 otherwise. -/
def SysInv (st : SysState) : Prop :=
  KeysNodup st.sched.tasks ∧
  ∀ name, st.launched.count name = inflight st.sched name

theorem sysStep_inv {st : SysState} (h : SysInv st) (e : SchedEvent) :
    SysInv (sysStep st e) := by
  obtain ⟨hk, hc⟩ := h
  cases e with
  | tick now =>
    constructor
    · show KeysNodup (startAll st.sched (dueNames st.sched.tasks now) now).tasks
      unfold KeysNodup
      rw [keys_startAll]
      exact hk
    · intro name
      show (st.launched ++ dueNames st.sched.tasks now).count name
          = inflight (startAll st.sched (dueNames st.sched.tasks now) now) name
      rw [List.count_append]
      by_cases hmem : name ∈ dueNames st.sched.tasks now
      · obtain ⟨t, hlk, hdue⟩ := (mem_dueNames_iff hk name now).mp hmem
        have hrun : t.is_running = false := by
          unfold isDue at hdue
          cases hr : t.is_running
          · rfl
          · rw [hr] at hdue; simp at hdue
        have h0 : st.launched.count name = 0 := by
          rw [hc name]
          unfold inflight
          rw [hlk]
          simp [hrun]
        have h1 : (dueNames st.sched.tasks now).count name = 1 :=
          List.count_eq_one_of_mem (dueNames_nodup hk now) hmem
        have h2 : inflight (startAll st.sched (dueNames st.sched.tasks now) now) name = 1 := by
          unfold inflight
          rw [lookup_startAll_mem _ _ _ _ hmem, hlk]
          rfl
        rw [h0, h1, h2]
      · have h1 : (dueNames st.sched.tasks now).count name = 0 :=
          List.count_eq_zero.mpr hmem
        have h2 : inflight (startAll st.sched (dueNames st.sched.tasks now) now) name
            = inflight st.sched name := by
          unfold inflight
          rw [lookup_startAll_not_mem _ _ _ _ hmem]
        rw [h1, h2, Nat.add_zero]
        exact hc name
  | finish name oc =>
    show SysInv (if st.launched.contains name then _ else st)
    by_cases hcon : st.launched.contains name = true
    · rw [if_pos hcon]
      have hmem : name ∈ st.launched := List.elem_iff.mp hcon
      have hpos : 0 < st.launched.count name := List.count_pos_iff.mpr hmem
      have h1 : st.launched.count name = 1 := by
        have := hc name
        have := inflight_le_one st.sched name
        omega
      constructor
      · exact keysNodup_execFinish st.sched name oc hk
      · intro nm
        by_cases hnm : nm = name
        · subst hnm
          show (st.launched.erase nm).count nm = inflight (execFinish st.sched nm oc) nm
          rw [List.count_erase_self, h1, inflight_execFinish_self]
        · show (st.launched.erase name).count nm = inflight (execFinish st.sched name oc) nm
          rw [List.count_erase_of_ne hnm]
          unfold inflight
          rw [lookup_execFinish_ne _ _ _ _ hnm]
          exact hc nm
    · rw [if_neg hcon]
      exact ⟨hk, hc⟩
  | runNow name =>
    cases hl : st.sched.tasks.lookup name with
    | none =>
      have he : run_task_now st.sched name = Except.error (SchedulerError.taskNotFound name) := by
        unfold run_task_now
        rw [hl]
      show SysInv (match run_task_now st.sched name with
        | .ok s2 => { st with sched := s2 }
        | .error _ => st)
      rw [he]
      exact ⟨hk, hc⟩
    | some t =>
      by_cases hr : t.is_running = true
      · have he : run_task_now st.sched name = Except.error (SchedulerError.taskBusy name) := by
          unfold run_task_now
          rw [hl]
          simp [hr]
        show SysInv (match run_task_now st.sched name with
          | .ok s2 => { st with sched := s2 }
          | .error _ => st)
        rw [he]
        exact ⟨hk, hc⟩
      · have hrf : t.is_running = false := by
          cases hb : t.is_running
          · rfl
          · exact absurd hb hr
        have he : run_task_now st.sched name = Except.ok
            { st.sched with tasks := updateTask st.sched.tasks name (fun u => { u with last_run := none }) } := by
          unfold run_task_now
          rw [hl]
          simp [hrf, updateTask]
        show SysInv (match run_task_now st.sched name with
          | .ok s2 => { st with sched := s2 }
          | .error _ => st)
        rw [he]
        constructor
        · show KeysNodup (updateTask st.sched.tasks name (fun u => { u with last_run := none }))
          unfold KeysNodup
          rw [keys_updateTask]
          exact hk
        · intro nm
          by_cases hnm : nm = name
          · subst hnm
            show st.launched.count nm
                = inflight { st.sched with tasks := updateTask st.sched.tasks nm (fun u => { u with last_run := none }) } nm
            unfold inflight
            rw [show ({ st.sched with tasks := updateTask st.sched.tasks nm (fun u => { u with last_run := none }) } : TaskScheduler).tasks
                = updateTask st.sched.tasks nm (fun u => { u with last_run := none }) from rfl,
              lookup_updateTask_self, hl]
            rw [hc nm]
            unfold inflight
            rw [hl]
            rfl
          · show st.launched.count nm
                = inflight { st.sched with tasks := updateTask st.sched.tasks name (fun u => { u with last_run := none }) } nm
            unfold inflight
            rw [show ({ st.sched with tasks := updateTask st.sched.tasks name (fun u => { u with last_run := none }) } : TaskScheduler).tasks
                = updateTask st.sched.tasks name (fun u => { u with last_run := none }) from rfl,
              lookup_updateTask_ne _ _ _ _ hnm]
            exact hc nm

theorem sysRun_inv {st : SysState} (h : SysInv st) (es : List SchedEvent) :
    SysInv (sysRun st es) := by
  induction es generalizing st with
  | nil => exact h
  | cons e es ih => exact ih (sysStep_inv h e)

/-- A name that is absent from the registry and has no in-flight execution
stays absent and never runs, whatever poll ticks, completions and
`run_task_now` calls happen: only an explicit re-add (not an event of this
system) could revive it. -/
theorem sysStep_absent {st : SysState} {name : String}
    (h1 : st.sched.tasks.lookup name = none) (h2 : st.launched.count name = 0)
    (e : SchedEvent) :
    (sysStep st e).sched.tasks.lookup name = none ∧
      (sysStep st e).launched.count name = 0 := by
  cases e with
  | tick now =>
    have hkeys : name ∉ st.sched.tasks.map (fun p => p.1) := lookup_eq_none_iff.mp h1
    have hdue : name ∉ dueNames st.sched.tasks now := fun hm =>
      hkeys ((dueNames_sublist st.sched.tasks now).subset hm)
    constructor
    · show (startAll st.sched (dueNames st.sched.tasks now) now).tasks.lookup name = none
      rw [lookup_startAll_not_mem _ _ _ _ hdue]
      exact h1
    · show (st.launched ++ dueNames st.sched.tasks now).count name = 0
      rw [List.count_append, h2, List.count_eq_zero.mpr hdue]
  | finish n oc =>
    simp only [sysStep]
    by_cases hcon : st.launched.contains n = true
    · have hne : name ≠ n := by
        intro hc
        subst hc
        have hpos : 0 < st.launched.count name :=
          List.count_pos_iff.mpr (List.elem_iff.mp hcon)
        omega
      rw [if_pos hcon]
      constructor
      · show (execFinish st.sched n oc).tasks.lookup name = none
        rw [lookup_execFinish_ne _ _ _ _ hne]
        exact h1
      · show (st.launched.erase n).count name = 0
        rw [List.count_erase_of_ne hne]
        exact h2
    · rw [if_neg hcon]
      exact ⟨h1, h2⟩
  | runNow n =>
    cases hl : st.sched.tasks.lookup n with
    | none =>
      have he : run_task_now st.sched n = Except.error (SchedulerError.taskNotFound n) := by
        unfold run_task_now
        rw [hl]
      simp only [sysStep, he]
      exact ⟨h1, h2⟩
    | some t =>
      by_cases hr : t.is_running = true
      · have he : run_task_now st.sched n = Except.error (SchedulerError.taskBusy n) := by
          unfold run_task_now
          rw [hl]
          simp [hr]
        simp only [sysStep, he]
        exact ⟨h1, h2⟩
      · have hrf : t.is_running = false := by
          cases hb : t.is_running
          · rfl
          · exact absurd hb hr
        have he : run_task_now st.sched n = Except.ok
            { st.sched with tasks := updateTask st.sched.tasks n (fun u => { u with last_run := none }) } := by
          unfold run_task_now
          rw [hl]
          simp [hrf, updateTask]
        have hne : name ≠ n := by
          intro hc
          subst hc
          rw [h1] at hl
          cases hl
        simp only [sysStep, he]
        constructor
        · show (updateTask st.sched.tasks n (fun u => { u with last_run := none })).lookup name = none
          rw [lookup_updateTask_ne _ _ _ _ hne]
          exact h1
        · exact h2

theorem sysRun_absent {st : SysState} {name : String}
    (h1 : st.sched.tasks.lookup name = none) (h2 : st.launched.count name = 0)
    (es : List SchedEvent) :
    (sysRun st es).sched.tasks.lookup name = none ∧
      (sysRun st es).launched.count name = 0 := by
  induction es generalizing st with
  | nil => exact ⟨h1, h2⟩
  | cons e es ih =>
    obtain ⟨g1, g2⟩ := sysStep_absent h1 h2 e
    exact ih g1 g2

/-- Unfolding of the due test into its three conditions. -/
theorem isDue_iff (t : ScheduledTask) (now : Int) :
    isDue t now = true ↔
      (t.is_running = false ∧
        (t.last_run = none ∨ ∃ T, t.last_run = some T ∧ now - T ≥ t.interval)) := by
  unfold isDue
  cases hr : t.is_running <;> cases hlr : t.last_run <;> simp [hlr]

/-! ### Claim theorems -/

/-- Fixed concrete task and scheduler used by the witness theorems. -/
def wTask : ScheduledTask :=
  { name := "a", func := 0, interval := 3, last_run := some 7 }

def wSched : TaskScheduler := { tasks := [("a", wTask)], running := true }

/-- C1: a registered task is selected as due by the poll loop exactly when
`is_running` is false and `last_run` is unset or elapsed time since it is at
least `interval`; with `last_run = T` and `interval = N` it is not selected
before `T + N` and is selected at or after `T + N`; with `last_run` unset it
is selected on the first tick. -/
theorem due_selection_iff (s : TaskScheduler) (name : String) (t : ScheduledTask)
    (now : Int) (hk : KeysNodup s.tasks) (hl : s.tasks.lookup name = some t) :
    (name ∈ dueNames s.tasks now ↔
      (t.is_running = false ∧
        (t.last_run = none ∨ ∃ T, t.last_run = some T ∧ now - T ≥ t.interval))) ∧
    (∀ T, t.last_run = some T → t.is_running = false →
      ((now < T + t.interval → name ∉ dueNames s.tasks now) ∧
       (T + t.interval ≤ now → name ∈ dueNames s.tasks now))) ∧
    (t.last_run = none → t.is_running = false → name ∈ dueNames s.tasks now) := by
  have hmem : name ∈ dueNames s.tasks now ↔ isDue t now = true := by
    rw [mem_dueNames_iff hk name now]
    constructor
    · rintro ⟨t', hl', hd⟩
      rw [hl] at hl'
      cases hl'
      exact hd
    · intro hd
      exact ⟨t, hl, hd⟩
  refine ⟨hmem.trans (isDue_iff t now), ?_, ?_⟩
  · intro T hT hr
    constructor
    · intro hlt hin
      have hd := (isDue_iff t now).mp (hmem.mp hin)
      rcases hd.2 with h2 | ⟨T', hT', hge⟩
      · rw [hT] at h2
        cases h2
      · rw [hT] at hT'
        cases hT'
        omega
    · intro hge
      exact hmem.mpr ((isDue_iff t now).mpr ⟨hr, Or.inr ⟨T, hT, by omega⟩⟩)
  · intro hnone hr
    exact hmem.mpr ((isDue_iff t now).mpr ⟨hr, Or.inl hnone⟩)

theorem due_selection_iff_witness :
    ("a" ∈ dueNames wSched.tasks 10) ∧ ("a" ∉ dueNames wSched.tasks 9) := by
  have h := due_selection_iff wSched "a" wTask 10 (by decide) (by decide)
  have h9 := due_selection_iff wSched "a" wTask 9 (by decide) (by decide)
  exact ⟨(h.2.1 7 rfl rfl).2 (by decide), (h9.2.1 7 rfl rfl).1 (by decide)⟩

theorem lookup_append_of_none {l1 l2 : List (String × ScheduledTask)} {name : String}
    (h : l1.lookup name = none) : (l1 ++ l2).lookup name = l2.lookup name := by
  induction l1 with
  | nil => rfl
  | cons p rest ih =>
    obtain ⟨k, b⟩ := p
    by_cases hp : name = k
    · rw [lookup_cons_eq k name b rest hp] at h
      cases h
    · rw [lookup_cons_ne k name b rest hp] at h
      rw [List.cons_append, lookup_cons_ne k name b (rest ++ l2) hp]
      exact ih h

theorem filter_key_eq_nil {ts : List (String × ScheduledTask)} {name : String}
    (h : ts.lookup name = none) : ts.filter (fun p => p.1 == name) = [] := by
  rw [List.filter_eq_nil_iff]
  intro p hp hbeq
  have hkey : p.1 = name := beq_iff_eq.mp hbeq
  exact (lookup_eq_none_iff.mp h) (List.mem_map.mpr ⟨p, hp, hkey⟩)

/-- C5: adding a task under an existing name fails with `DuplicateTaskError`
and mutates nothing: after a successful add and a second add of the same
name, the second call errors, the registry holds exactly one entry for the
name, and that entry carries the first call's configuration. -/
theorem add_duplicate_rejected (s s1 : TaskScheduler) (name : String)
    (f1 f2 : Nat) (i1 i2 : Option Int) (k1 k2 : List (String × Int))
    (h : add_task s name f1 i1 k1 = .ok s1) :
    add_task s1 name f2 i2 k2 = .error (.duplicateTask name) ∧
    (s1.tasks.filter (fun p => p.1 == name)).length = 1 ∧
    s1.tasks.lookup name = some
      { name := name, func := f1, interval := resolvedInterval name i1,
        kwargs := k1 } := by
  unfold add_task at h
  by_cases hl : (s.tasks.lookup name).isSome = true
  · rw [if_pos hl] at h
    cases h
  · rw [if_neg hl] at h
    have hnone : s.tasks.lookup name = none := by
      cases hc : s.tasks.lookup name
      · rfl
      · rw [hc] at hl
        exact absurd rfl hl
    injection h with hs1
    subst hs1
    have hlk : (s.tasks ++ [(name,
        ({ name := name, func := f1, interval := resolvedInterval name i1,
           kwargs := k1 } : ScheduledTask))]).lookup name = some
        { name := name, func := f1, interval := resolvedInterval name i1,
          kwargs := k1 } := by
      rw [lookup_append_of_none hnone]
      exact lookup_cons_eq name name _ [] rfl
    refine ⟨?_, ?_, hlk⟩
    · unfold add_task
      rw [if_pos (by rw [show ({ s with tasks := s.tasks ++ [(name,
          ({ name := name, func := f1, interval := resolvedInterval name i1,
             kwargs := k1 } : ScheduledTask))] } : TaskScheduler).tasks
          = s.tasks ++ [(name,
          ({ name := name, func := f1, interval := resolvedInterval name i1,
             kwargs := k1 } : ScheduledTask))] from rfl, hlk]; rfl)]
    · show ((s.tasks ++ [(name,
          ({ name := name, func := f1, interval := resolvedInterval name i1,
             kwargs := k1 } : ScheduledTask))]).filter (fun p => p.1 == name)).length = 1
      rw [List.filter_append, filter_key_eq_nil hnone]
      simp

theorem add_duplicate_rejected_witness :
    add_task TaskScheduler.init "x" 1 (some 10) [] = Except.ok
      { tasks := [("x", { name := "x", func := 1, interval := 10 })], running := false } ∧
    add_task { tasks := [("x", { name := "x", func := 1, interval := 10 })], running := false }
      "x" 2 (some 20) [] = Except.error (SchedulerError.duplicateTask "x") := by
  constructor
  · rfl
  · exact (add_duplicate_rejected TaskScheduler.init
      { tasks := [("x", { name := "x", func := 1, interval := 10 })], running := false }
      "x" 1 2 (some 10) (some 20) [] [] rfl).1

/-- C9: with `interval` omitted, `add_task` stores the per-name default from
the static table (`knowledge_update` resolves to 3600, `health_check` to 300,
unknown names to the 3600 fallback); with `interval` supplied, the supplied
value is stored. -/
theorem default_interval_resolution (s : TaskScheduler) (name : String)
    (f : Nat) (k : List (String × Int)) (hl : s.tasks.lookup name = none) :
    (∃ s1, add_task s name f none k = .ok s1 ∧
      s1.tasks.lookup name = some
        { name := name, func := f,
          interval := (default_intervals.lookup name).getD 3600, kwargs := k }) ∧
    (∀ v : Int, ∃ s1, add_task s name f (some v) k = .ok s1 ∧
      s1.tasks.lookup name = some
        { name := name, func := f, interval := v, kwargs := k }) ∧
    ((default_intervals.lookup "knowledge_update").getD 3600 = 3600) ∧
    ((default_intervals.lookup "health_check").getD 3600 = 300) ∧
    ((default_intervals.lookup "no_such_task").getD 3600 = 3600) := by
  have hns : ¬ ((s.tasks.lookup name).isSome = true) := by
    rw [hl]
    exact Bool.false_ne_true
  refine ⟨⟨{ s with tasks := s.tasks ++ [(name,
        { name := name, func := f, interval := resolvedInterval name none,
          kwargs := k })] }, ?_, ?_⟩,
    fun v => ⟨{ s with tasks := s.tasks ++ [(name,
        { name := name, func := f, interval := resolvedInterval name (some v),
          kwargs := k })] }, ?_, ?_⟩, by decide, by decide, by decide⟩
  · unfold add_task
    rw [if_neg hns]
  · rw [lookup_append_of_none hl]
    exact lookup_cons_eq name name _ [] rfl
  · unfold add_task
    rw [if_neg hns]
  · rw [lookup_append_of_none hl]
    exact lookup_cons_eq name name _ [] rfl

theorem default_interval_resolution_witness :
    add_task TaskScheduler.init "health_check" 0 none [] = Except.ok
      { tasks := [("health_check", { name := "health_check", func := 0, interval := 300 })], running := false } ∧
    (default_intervals.lookup "health_check").getD 3600 = 300 := by
  refine ⟨rfl, ?_⟩
  exact (default_interval_resolution TaskScheduler.init "health_check" 0 [] (by decide)).2.2.2.1

/-- C6: `run_task_now` fails with `TaskNotFoundError` for an unknown name,
with `TaskBusyError` when the task is running, and otherwise clears
`last_run` (so the task is due at every later tick) while changing nothing
else: the scheduler's running flag, every other registry entry, and every
other field of the task are unchanged. -/
theorem run_task_now_cases (s : TaskScheduler) (name : String) :
    (s.tasks.lookup name = none →
      run_task_now s name = .error (.taskNotFound name)) ∧
    (∀ t, s.tasks.lookup name = some t → t.is_running = true →
      run_task_now s name = .error (.taskBusy name)) ∧
    (∀ t, s.tasks.lookup name = some t → t.is_running = false →
      ∃ s1, run_task_now s name = .ok s1 ∧
        s1.running = s.running ∧
        s1.tasks.lookup name = some { t with last_run := none } ∧
        (∀ nm, nm ≠ name → s1.tasks.lookup nm = s.tasks.lookup nm) ∧
        (∀ now : Int, isDue { t with last_run := none } now = true)) := by
  refine ⟨?_, ?_, ?_⟩
  · intro hl
    unfold run_task_now
    rw [hl]
  · intro t hl hr
    unfold run_task_now
    rw [hl]
    simp [hr]
  · intro t hl hr
    refine ⟨{ s with tasks := updateTask s.tasks name (fun u => { u with last_run := none }) },
      ?_, rfl, ?_, ?_, ?_⟩
    · unfold run_task_now
      rw [hl]
      simp [hr, updateTask]
    · show (updateTask s.tasks name (fun u => { u with last_run := none })).lookup name = _
      rw [lookup_updateTask_self, hl]
      rfl
    · intro nm hnm
      show (updateTask s.tasks name (fun u => { u with last_run := none })).lookup nm = _
      exact lookup_updateTask_ne s.tasks name nm _ hnm
    · intro now
      unfold isDue
      simp [hr]

theorem run_task_now_cases_witness :
    run_task_now { tasks := [], running := false } "missing"
      = Except.error (SchedulerError.taskNotFound "missing") :=
  (run_task_now_cases { tasks := [], running := false } "missing").1 rfl

/-- C10: `update_interval` errors exactly when the name is absent; it
validates nothing, storing zero and negative intervals verbatim (all other
state unchanged); and a non-running task whose interval is at most zero is
due at every tick not earlier than its `last_run` (hence on every subsequent
tick). -/
theorem update_interval_no_validation (s : TaskScheduler) (name : String) (v : Int) :
    (s.tasks.lookup name = none ↔
      update_interval s name v = .error (.taskNotFound name)) ∧
    (∀ t, s.tasks.lookup name = some t →
      ∃ s1, update_interval s name v = .ok s1 ∧
        s1.running = s.running ∧
        s1.tasks.lookup name = some { t with interval := v } ∧
        (∀ nm, nm ≠ name → s1.tasks.lookup nm = s.tasks.lookup nm)) ∧
    (∀ t : ScheduledTask, ∀ now T : Int, t.is_running = false → t.interval ≤ 0 →
      (t.last_run = none ∨ (t.last_run = some T ∧ T ≤ now)) →
      isDue t now = true) := by
  refine ⟨⟨?_, ?_⟩, ?_, ?_⟩
  · intro hl
    unfold update_interval
    rw [if_neg (by rw [hl]; exact Bool.false_ne_true)]
  · intro he
    cases hc : s.tasks.lookup name with
    | none => rfl
    | some t =>
      unfold update_interval at he
      rw [if_pos (by rw [hc]; rfl)] at he
      cases he
  · intro t hl
    refine ⟨{ s with tasks := updateTask s.tasks name (fun u => { u with interval := v }) },
      ?_, rfl, ?_, ?_⟩
    · unfold update_interval
      rw [if_pos (by rw [hl]; rfl)]
    · show (updateTask s.tasks name (fun u => { u with interval := v })).lookup name = _
      rw [lookup_updateTask_self, hl]
      rfl
    · intro nm hnm
      show (updateTask s.tasks name (fun u => { u with interval := v })).lookup nm = _
      exact lookup_updateTask_ne s.tasks name nm _ hnm
  · intro t now T hr hint hlr
    rw [isDue_iff]
    rcases hlr with h | ⟨h1, h2⟩
    · exact ⟨hr, Or.inl h⟩
    · exact ⟨hr, Or.inr ⟨T, h1, by omega⟩⟩

theorem update_interval_no_validation_witness :
    update_interval wSched "a" (-5) = Except.ok
      { tasks := [("a", { wTask with interval := -5 })], running := true } ∧
    isDue { wTask with interval := -5 } 7 = true := by
  refine ⟨rfl, ?_⟩
  exact (update_interval_no_validation wSched "a" (-5)).2.2
    { wTask with interval := -5 } 7 7 rfl (by decide) (Or.inr ⟨rfl, by decide⟩)

theorem all_not_running_updateTask (ts : List (String × ScheduledTask))
    (name : String) (t : ScheduledTask) (h : t.is_running = false) :
    (updateTask ts name (fun _ => t)).all
      (fun p => !(p.1 == name) || !p.2.is_running) = true := by
  induction ts with
  | nil => rfl
  | cons p rest ih =>
    obtain ⟨k, b⟩ := p
    rw [updateTask_cons]
    by_cases hk : k = name
    · rw [if_pos hk]
      simp only [List.all_cons, ih, Bool.and_true]
      simp [hk, h]
    · rw [if_neg hk]
      simp only [List.all_cons, ih, Bool.and_true]
      simp [hk]

/-- C7: when an execution finishes, the task's `is_running` flag is false —
whether the work succeeded, raised, or the failure handling itself raised
(`remove_task` raising inside the except block, `escaped = true`): the
executing object's flag is cleared, and so is every registry entry under the
task's name. -/
theorem is_running_cleared (s : TaskScheduler) (task : ScheduledTask)
    (start : Int) (oc : ExecEvent) :
    ((execute_task s task start oc).obj.is_running = false) ∧
    ((execute_task s task start oc).sched.tasks.all
      (fun p => !(p.1 == task.name) || !p.2.is_running) = true) := by
  cases oc with
  | success =>
    exact ⟨rfl, all_not_running_updateTask _ task.name _ rfl⟩
  | failure =>
    refine ⟨rfl, ?_⟩
    simp only [execute_task]
    by_cases hth : task.error_count + 1 ≥ task.max_errors
    · rw [if_pos hth]
      split
      · exact all_not_running_updateTask _ task.name _ rfl
      · exact all_not_running_updateTask _ task.name _ rfl
    · rw [if_neg hth]
      exact all_not_running_updateTask _ task.name _ rfl

theorem is_running_cleared_witness :
    (execute_task wSched wTask 8 ExecEvent.failure).obj.is_running = false :=
  (is_running_cleared wSched wTask 8 ExecEvent.failure).1

theorem remove_then_lookup {s2 s3 : TaskScheduler} {nm : String}
    (heq : remove_task s2 nm = .ok s3) : s3.tasks.lookup nm = none := by
  unfold remove_task at heq
  by_cases hsome : (s2.tasks.lookup nm).isSome = true
  · rw [if_pos hsome] at heq
    injection heq with h
    subst h
    exact lookup_filter_self s2.tasks nm
  · rw [if_neg hsome] at heq
    cases heq

theorem remove_error_lookup {s2 : TaskScheduler} {nm : String} {e : SchedulerError}
    (heq : remove_task s2 nm = .error e) : s2.tasks.lookup nm = none := by
  unfold remove_task at heq
  by_cases hsome : (s2.tasks.lookup nm).isSome = true
  · rw [if_pos hsome] at heq
    cases heq
  · rw [if_neg hsome] at heq
    cases hc : s2.tasks.lookup nm
    · rfl
    · rw [hc] at hsome
      exact absurd rfl hsome

/-- C3: success resets `error_count` to 0; a raised error increments it by
exactly 1; when the incremented count reaches `max_errors` the task is
removed from the registry by the same execution, and from an absent-and-idle
state no sequence of poll ticks, completions or `run_task_now` calls ever
runs it again — only an explicit re-add (not an event of this system) could. -/
theorem error_count_policy (s : TaskScheduler) (task : ScheduledTask) (start : Int) :
    ((execute_task s task start .success).obj.error_count = 0) ∧
    ((execute_task s task start .failure).obj.error_count = task.error_count + 1) ∧
    (task.error_count + 1 ≥ task.max_errors →
      (execute_task s task start .failure).sched.tasks.lookup task.name = none) ∧
    (∀ st : SysState, ∀ name : String, ∀ es : List SchedEvent,
      st.sched.tasks.lookup name = none → st.launched.count name = 0 →
      ((sysRun st es).sched.tasks.lookup name = none ∧
        (sysRun st es).launched.count name = 0)) := by
  refine ⟨rfl, ?_, ?_, fun st name es h1 h2 => sysRun_absent h1 h2 es⟩
  · simp only [execute_task]
    by_cases hth : task.error_count + 1 ≥ task.max_errors
    · rw [if_pos hth]
      split
      all_goals rfl
    · rw [if_neg hth]
  · intro hth
    simp only [execute_task]
    rw [if_pos hth]
    split
    next s3 heq =>
      dsimp only [setObj]
      rw [lookup_updateTask_self, remove_then_lookup heq]
      rfl
    next e heq =>
      dsimp only [setObj] at heq ⊢
      rw [lookup_updateTask_self, remove_error_lookup heq]
      rfl

theorem error_count_policy_witness :
    (execute_task { tasks := [("c", { name := "c", func := 0, interval := 1, error_count := 2 })], running := true }
      { name := "c", func := 0, interval := 1, error_count := 2 }
      5 ExecEvent.failure).sched.tasks.lookup "c" = none ∧
    (sysRun { sched := TaskScheduler.init, launched := [] }
      [SchedEvent.tick 0]).sched.tasks.lookup "c" = none := by
  have h := error_count_policy
    { tasks := [("c", { name := "c", func := 0, interval := 1, error_count := 2 })], running := true }
    { name := "c", func := 0, interval := 1, error_count := 2 } 5
  refine ⟨h.2.2.1 (by decide), ?_⟩
  exact (h.2.2.2 { sched := TaskScheduler.init, launched := [] } "c" [SchedEvent.tick 0] rfl rfl).1

/-- C2: no self-overlap — starting from any scheduler whose registry keys
are distinct and whose tasks are all idle, after any interleaving of poll
ticks, execution completions and `run_task_now` calls, at most one execution
of each task is in flight: the launch step marks `is_running` before the
same task can be launched again, and the due check refuses running tasks. -/
theorem no_self_overlap (s : TaskScheduler)
    (hk : KeysNodup s.tasks)
    (hidle : ∀ p ∈ s.tasks, p.2.is_running = false) :
    ∀ (es : List SchedEvent) (name : String),
      (sysRun { sched := s, launched := [] } es).launched.count name ≤ 1 := by
  have hinv : SysInv { sched := s, launched := [] } := by
    refine ⟨hk, fun name => ?_⟩
    show ([] : List String).count name = inflight s name
    unfold inflight
    cases hl : s.tasks.lookup name with
    | none => rfl
    | some t =>
      have hfalse := hidle (name, t) (mem_of_lookup_eq_some hl)
      simp only at hfalse
      simp [hfalse]
  intro es name
  rw [(sysRun_inv hinv es).2 name]
  exact inflight_le_one _ name

theorem no_self_overlap_witness :
    (sysRun { sched := { tasks := [("a", wTask)], running := true }, launched := [] }
      [SchedEvent.tick 100, SchedEvent.runNow "a",
       SchedEvent.finish "a" ExecEvent.success]).launched.count "a" ≤ 1 :=
  no_self_overlap { tasks := [("a", wTask)], running := true } (by decide) (by decide)
    [SchedEvent.tick 100, SchedEvent.runNow "a", SchedEvent.finish "a" ExecEvent.success] "a"

/-- One status row as computed by `get_status` for a task. -/
def statusRow (now : Int) (t : ScheduledTask) : TaskStatus :=
  { last_run := t.last_run, is_running := t.is_running,
    error_count := t.error_count, interval := t.interval,
    next_run := match t.last_run with
      | some T => T + t.interval
      | none => now }

theorem lookup_cons_eq_status (k nm : String) (b : TaskStatus)
    (rest : List (String × TaskStatus)) (h : nm = k) :
    ((k, b) :: rest).lookup nm = some b := by
  subst h
  simp [List.lookup]

theorem lookup_cons_ne_status (k nm : String) (b : TaskStatus)
    (rest : List (String × TaskStatus)) (h : nm ≠ k) :
    ((k, b) :: rest).lookup nm = rest.lookup nm := by
  have hb : (nm == k) = false := beq_eq_false_iff_ne.mpr h
  simp [List.lookup, hb]

/-- C8: `get_status` reports every registered task and no others, and for
each one its `last_run`, `is_running`, `error_count`, `interval`, and
`next_run = last_run + interval` (or the current time when never run).  In
this embedding `get_status` is a pure function `TaskScheduler → Int → status
list` — it returns only the snapshot and no scheduler, so it cannot change
the registry or any task field, which is the read-only guarantee. -/
theorem get_status_correct (s : TaskScheduler) (now : Int) :
    ((get_status s now).map (fun p => p.1) = s.tasks.map (fun p => p.1)) ∧
    (∀ name, (get_status s now).lookup name = (s.tasks.lookup name).map
      (fun t => ({ last_run := t.last_run, is_running := t.is_running,
                   error_count := t.error_count, interval := t.interval,
                   next_run := match t.last_run with
                     | some T => T + t.interval
                     | none => now } : TaskStatus))) := by
  constructor
  · unfold get_status
    rw [List.map_map]
    rfl
  · intro name
    show ((s.tasks.map (fun p => (p.1, statusRow now p.2))).lookup name) = _
    induction s.tasks with
    | nil => rfl
    | cons p rest ih =>
      obtain ⟨k, b⟩ := p
      by_cases hp : name = k
      · rw [List.map_cons, lookup_cons_eq_status k name _ _ hp,
          lookup_cons_eq k name b rest hp]
        rfl
      · rw [List.map_cons, lookup_cons_ne_status k name _ _ hp,
          lookup_cons_ne k name b rest hp]
        exact ih

/-! ### C4: the `max_errors=2` registration scenario -/

/-- The task that `add_task TaskScheduler.init "t" 0 none [("max_errors", 2)]`
actually creates: the keyword lands in `kwargs`; `max_errors` keeps its
default 3. -/
def cxTask : ScheduledTask :=
  { name := "t", func := 0, interval := 3600, kwargs := [("max_errors", 2)] }

def cxSched : TaskScheduler := { tasks := [("t", cxTask)], running := false }

/-- First, second and third always-failing executions of `"t"`. -/
def cxE1 : ExecResult := execute_task cxSched cxTask 0 .failure

def cxE2 : ExecResult := execute_task cxE1.sched cxE1.obj 1 .failure

def cxE3 : ExecResult := execute_task cxE2.sched cxE2.obj 2 .failure

/-- C4 counterexample: `add_task` with a `max_errors=2` keyword does NOT give
the task `max_errors = 2` (the pair goes into the work's kwargs; the field
stays 3), and after exactly 2 failing executions the task is still in the
registry and `run_task_now "t"` does not fail with `TaskNotFoundError` — it
succeeds.  This refutes the claim at this concrete input. -/
theorem add_task_max_errors_counterexample :
    add_task TaskScheduler.init "t" 0 none [("max_errors", 2)] = Except.ok cxSched ∧
    cxTask.max_errors = 3 ∧
    cxTask.kwargs = [("max_errors", 2)] ∧
    cxE2.sched.tasks.lookup "t" = some cxE2.obj ∧
    cxE2.obj.error_count = 2 ∧
    cxE2.sched.tasks.lookup "t" ≠ none ∧
    run_task_now cxE2.sched "t" ≠ Except.error (SchedulerError.taskNotFound "t") := by
  refine ⟨rfl, rfl, rfl, rfl, rfl, ?_, ?_⟩
  · intro h
    rw [show cxE2.sched.tasks.lookup "t" = some cxE2.obj from rfl] at h
    exact Option.noConfusion h
  · intro h
    rw [show run_task_now cxE2.sched "t" = Except.ok { cxE2.sched with tasks := updateTask cxE2.sched.tasks "t" (fun u => { u with last_run := none }) } from rfl] at h
    exact Except.noConfusion h

/-- C4 amended: `add_task` provides no way to set `max_errors`; the keyword
is captured into the work's kwargs and the task keeps the default
`max_errors = 3`.  A task whose work always raises is therefore removed
after exactly 3 triggered executions (after 2 it is still registered with
`error_count = 2`), and a subsequent `run_task_now` on its name fails with
`TaskNotFoundError`. -/
theorem add_task_max_errors_default :
    add_task TaskScheduler.init "t" 0 none [("max_errors", 2)] = Except.ok cxSched ∧
    cxTask.max_errors = 3 ∧
    cxE1.obj.error_count = 1 ∧
    cxE1.sched.tasks.lookup "t" = some cxE1.obj ∧
    cxE2.obj.error_count = 2 ∧
    cxE2.sched.tasks.lookup "t" = some cxE2.obj ∧
    cxE3.sched.tasks.lookup "t" = none ∧
    run_task_now cxE3.sched "t" = Except.error (SchedulerError.taskNotFound "t") :=
  ⟨rfl, rfl, rfl, rfl, rfl, rfl, rfl, rfl⟩

end Scheduler
